import Mathlib

/-!
# Verification of the wind-data analysis core (`modules/analysis_runner.py`)

Shallow embedding of the harmonization / statistics engine:

* `pandas` daily tables are modelled row-major: a list of column names plus a
  list of rows, each row a list of cells aligned with the column list.
* A cell is `na` (NaN/NaT/None), a raw string, a float (modelled as `ℚ`,
  every IEEE float being a rational), or a parsed UTC timestamp (modelled as
  a calendar `Date`, the series being daily).
* `pd.to_datetime(..., errors="coerce", utc=True)` on raw cells is modelled
  by explicit parser parameters (`sp` for strings, `np` for numbers): a raw
  cell becomes the parsed date or `na`; an already-parsed date cell is left
  unchanged, as `to_datetime` is the identity on tz-aware datetimes.
* `sort_values("time")` is modelled by a stable sort with missing times
  placed last (`na_position="last"`).
* `round(x, 1)` / `np.round(x, 2)` both round half to even; `rhe` below is
  that rounding to integers, scaled as needed.
* `scipy.stats.gumbel_r.fit` is an external iterative MLE routine; it is
  taken as an explicit function argument (`none` = the fit raised), and
  `gumbel_r.ppf` is expanded to its closed form
  `loc - scale * log (-log p)` with the scipy boundary conventions
  (`ppf 0 = -∞`, `ppf 1 = +∞`, `ppf p = NaN` outside `[0,1]`).
-/

namespace WindData

/-- A UTC calendar day (the daily series carry midnight timestamps, so the
`Timestamp.date()` projection used by the code is the identity here). -/
structure Date where
  year : ℤ
  month : ℤ
  day : ℤ
deriving DecidableEq, Repr

/-- Lexicographic `≤` on dates, as a boolean. -/
def Date.leB (a b : Date) : Bool :=
  decide (a.year < b.year ∨ (a.year = b.year ∧
    (a.month < b.month ∨ (a.month = b.month ∧ a.day ≤ b.day))))

theorem Date.leB_total (a b : Date) : a.leB b = true ∨ b.leB a = true := by
  simp only [Date.leB, decide_eq_true_eq]
  omega

/-- One table cell. -/
inductive Cell where
  | na
  | str (s : String)
  | num (q : ℚ)
  | dt (d : Date)
deriving DecidableEq, Repr

/-- `pandas` missingness test (`isna`): only `NaN`/`NaT`/`None` count. -/
def Cell.isNA : Cell → Bool
  | Cell.na => true
  | _ => false

/-- The date held by a cell, if any. -/
def Cell.date? : Cell → Option Date
  | Cell.dt d => some d
  | _ => none

/-- The numeric value held by a cell, if any. -/
def Cell.num? : Cell → Option ℚ
  | Cell.num q => some q
  | _ => none

/-- A `pandas.DataFrame`, row-major.  Rows are aligned with `cols` by
position; a cell read past the end of a row yields `na`. -/
structure DataFrame where
  cols : List String
  rows : List (List Cell)
deriving DecidableEq, Repr

/-- Position of the column named `t` (first occurrence), `none` if absent:
the model of `"t" in df.columns` together with column lookup. -/
def colIdx : List String → String → Option ℕ
  | [], _ => none
  | c :: cs, t => if c = t then some 0 else (colIdx cs t).map (· + 1)

/-- Read the cell of row `r` in column position `j`. -/
def getCell (r : List Cell) (j : ℕ) : Cell := r.getD j Cell.na

theorem colIdx_isSome_iff (cs : List String) (t : String) :
    (colIdx cs t).isSome = true ↔ t ∈ cs := by
  induction cs with
  | nil => simp [colIdx]
  | cons c cs ih =>
    by_cases h : c = t <;> simp [colIdx, h, ih, Option.isSome_map]
    exact fun hmem => (h (by simp [hmem])).elim

theorem colIdx_eq_none_iff (cs : List String) (t : String) :
    colIdx cs t = none ↔ t ∉ cs := by
  rw [← colIdx_isSome_iff]
  cases colIdx cs t <;> simp

/-- If no column before position `j` is named `t` and position `j` is, then
`colIdx` finds `j`. -/
theorem colIdx_map_of_not_target (cs : List String) (t : String)
    (f : String → String) (hf : ∀ c ∈ cs, c ≠ t → f c ≠ t)
    (hft : ∀ c ∈ cs, c = t → f c = t) :
    colIdx (cs.map f) t = colIdx cs t := by
  induction cs with
  | nil => simp [colIdx]
  | cons c cs ih =>
    by_cases h : c = t
    · subst h
      simp [colIdx, hft c (by simp) rfl]
    · have hfc : f c ≠ t := hf c (by simp) h
      simp [colIdx, h, hfc,
        ih (fun d hd => hf d (by simp [hd])) (fun d hd => hft d (by simp [hd]))]

end WindData

namespace WindData

/-! ## Stable sort

`pandas.sort_values` reorders rows by the sort key; ties (and the block of
missing keys, placed last) keep their relative order.  We model it with a
stable insertion sort parameterized by a total boolean `≤`. -/

/-- Insert `x` in front of the first element not `≤`-below it (stable: `x`
goes before elements equal to it that came later in the original list). -/
def sortedInsert (le : α → α → Bool) (x : α) : List α → List α
  | [] => [x]
  | y :: ys => if le x y then x :: y :: ys else y :: sortedInsert le x ys

/-- Stable insertion sort. -/
def insSort (le : α → α → Bool) : List α → List α
  | [] => []
  | x :: xs => sortedInsert le x (insSort le xs)

theorem sortedInsert_perm (le : α → α → Bool) (x : α) (l : List α) :
    (sortedInsert le x l).Perm (x :: l) := by
  induction l with
  | nil => simp [sortedInsert]
  | cons y ys ih =>
    by_cases h : le x y
    · simp [sortedInsert, h]
    · simp only [sortedInsert, h, Bool.false_eq_true, if_false]
      exact (ih.cons y).trans (List.Perm.swap x y ys)

theorem insSort_perm (le : α → α → Bool) (l : List α) :
    (insSort le l).Perm l := by
  induction l with
  | nil => simp [insSort]
  | cons x xs ih =>
    exact (sortedInsert_perm le x (insSort le xs)).trans (ih.cons x)

theorem sortedInsert_chain (le : α → α → Bool)
    (htot : ∀ a b, le a b = true ∨ le b a = true) (x : α) (l : List α)
    (hl : l.Chain' (fun a b => le a b = true)) :
    (sortedInsert le x l).Chain' (fun a b => le a b = true) := by
  induction l with
  | nil => simp [sortedInsert]
  | cons y ys ih =>
    by_cases h : le x y
    · simpa [sortedInsert, h] using hl
    · have hyx : le y x = true := (htot x y).resolve_left (by simpa using h)
      simp only [sortedInsert, h, Bool.false_eq_true, if_false]
      rw [List.chain'_cons'] at hl ⊢
      refine ⟨?_, ih hl.2⟩
      intro z hz
      cases ys with
      | nil => simp [sortedInsert] at hz; simpa [hz] using hyx
      | cons w ws =>
        by_cases hw : le x w <;>
          simp only [sortedInsert, hw, if_true, Bool.false_eq_true, if_false,
            List.head?_cons, Option.mem_def, Option.some.injEq] at hz
        · subst hz; exact hyx
        · subst hz; exact hl.1 w (by simp)

theorem insSort_chain (le : α → α → Bool)
    (htot : ∀ a b, le a b = true ∨ le b a = true) (l : List α) :
    (insSort le l).Chain' (fun a b => le a b = true) := by
  induction l with
  | nil => simp [insSort]
  | cons x xs ih => exact sortedInsert_chain le htot x _ ih

/-- Sorting a list that is already sorted leaves it unchanged (the key fact
behind idempotence of the normalizer). -/
theorem insSort_eq_self (le : α → α → Bool) (l : List α)
    (hl : l.Chain' (fun a b => le a b = true)) :
    insSort le l = l := by
  induction l with
  | nil => simp [insSort]
  | cons x xs ih =>
    rw [List.chain'_cons'] at hl
    simp only [insSort, ih hl.2]
    cases xs with
    | nil => simp [sortedInsert]
    | cons y ys => simp [sortedInsert, hl.1 y (by simp)]

end WindData

namespace WindData

/-! ## Banker's rounding

Python's `round(x, n)` and `np.round(x, n)` round half to even. -/

/-- Round half to even, to an integer. -/
def rhe {α : Type*} [LinearOrderedField α] [FloorRing α] (x : α) : ℤ :=
  if Int.fract x < 1/2 then ⌊x⌋
  else if 1/2 < Int.fract x then ⌊x⌋ + 1
  else if Even ⌊x⌋ then ⌊x⌋ else ⌊x⌋ + 1

theorem floor_le_rhe {α : Type*} [LinearOrderedField α] [FloorRing α]
    (x : α) : ⌊x⌋ ≤ rhe x := by
  unfold rhe
  split_ifs <;> omega

theorem rhe_le_floor_add_one {α : Type*} [LinearOrderedField α] [FloorRing α]
    (x : α) : rhe x ≤ ⌊x⌋ + 1 := by
  unfold rhe
  split_ifs <;> omega

theorem rhe_intCast {α : Type*} [LinearOrderedField α] [FloorRing α]
    (n : ℤ) : rhe (n : α) = n := by
  unfold rhe
  simp [Int.fract_intCast]

theorem rhe_mono {α : Type*} [LinearOrderedField α] [FloorRing α]
    {x y : α} (hxy : x ≤ y) : rhe x ≤ rhe y := by
  rcases lt_or_eq_of_le (Int.floor_le_floor hxy) with hf | hf
  · calc rhe x ≤ ⌊x⌋ + 1 := rhe_le_floor_add_one x
      _ ≤ ⌊y⌋ := by omega
      _ ≤ rhe y := floor_le_rhe y
  · have hfr : Int.fract x ≤ Int.fract y := by
      simp only [Int.fract]
      rw [hf]
      exact sub_le_sub_right hxy _
    unfold rhe
    rw [hf]
    split_ifs <;> first | omega | linarith

end WindData

namespace WindData

/-! ## `_normalize_dataframe_columns` (analysis_runner.py, lines 90-118)

```python
df = df.copy()
if "time" in df.columns:
    df["time"] = pd.to_datetime(df["time"], errors="coerce", utc=True)
elif "date" in df.columns:
    df["time"] = pd.to_datetime(df["date"], errors="coerce", utc=True)
else:
    return df
col_map = {}
if "wind_speed" in df.columns and "windspeed_mean" not in df.columns:
    col_map["wind_speed"] = "windspeed_mean"
if "wind_gust" in df.columns and "windspeed_gust" not in df.columns:
    col_map["wind_gust"] = "windspeed_gust"
if col_map:
    df = df.rename(columns=col_map)
df = df.sort_values("time").reset_index(drop=True)
```
-/

/-- `pd.to_datetime(cell, errors="coerce", utc=True)` on one cell.  `sp`/`nq`
are the external string/number date parsers (`none` = unparsable, coerced to
`NaT`); tz-aware datetimes and `NaT` pass through unchanged. -/
def parseCell (sp : String → Option Date) (nq : ℚ → Option Date) : Cell → Cell
  | Cell.dt d => Cell.dt d
  | Cell.na => Cell.na
  | Cell.str s => ((sp s).map Cell.dt).getD Cell.na
  | Cell.num q => ((nq q).map Cell.dt).getD Cell.na

/-- Parsing an already-parsed column cell changes nothing. -/
theorem parseCell_parseCell (sp nq) (c : Cell) :
    parseCell sp nq (parseCell sp nq c) = parseCell sp nq c := by
  cases c with
  | na => rfl
  | dt d => rfl
  | str s => cases h : sp s <;> simp [parseCell, h]
  | num q => cases h : nq q <;> simp [parseCell, h]

/-- `df["time"] = pd.to_datetime(df["time"], ...)` : overwrite column `j`
with its parsed cells. -/
def parseColAt (sp : String → Option Date) (nq : ℚ → Option Date)
    (df : DataFrame) (j : ℕ) : DataFrame :=
  { cols := df.cols,
    rows := df.rows.map fun r => r.set j (parseCell sp nq (getCell r j)) }

/-- `df["time"] = pd.to_datetime(df["date"], ...)` when `"time"` is absent:
a new `"time"` column is appended, parsed from column `j`. -/
def appendTimeCol (sp : String → Option Date) (nq : ℚ → Option Date)
    (df : DataFrame) (j : ℕ) : DataFrame :=
  { cols := df.cols ++ ["time"],
    rows := df.rows.map fun r => r ++ [parseCell sp nq (getCell r j)] }

/-- The column substitution applied by `df.rename(columns=col_map)`:
`wind_speed → windspeed_mean` and `wind_gust → windspeed_gust`, each only
when the canonical name is absent. -/
def renameFun (cols : List String) (c : String) : String :=
  if "wind_speed" ∈ cols ∧ "windspeed_mean" ∉ cols ∧ c = "wind_speed" then
    "windspeed_mean"
  else if "wind_gust" ∈ cols ∧ "windspeed_gust" ∉ cols ∧ c = "wind_gust" then
    "windspeed_gust"
  else c

def renameWind (df : DataFrame) : DataFrame :=
  { cols := df.cols.map (renameFun df.cols), rows := df.rows }

/-- Row comparison used by `sort_values("time")`: order by the time cell of
column `j`, missing times last (`na_position="last"`, the default). -/
def rowLe (j : ℕ) (r1 r2 : List Cell) : Bool :=
  match (getCell r1 j).date?, (getCell r2 j).date? with
  | _, none => true
  | none, some _ => false
  | some d1, some d2 => d1.leB d2

theorem rowLe_total (j : ℕ) (r1 r2 : List Cell) :
    rowLe j r1 r2 = true ∨ rowLe j r2 r1 = true := by
  unfold rowLe
  cases (getCell r1 j).date? with
  | none => cases (getCell r2 j).date? <;> simp
  | some d1 =>
    cases (getCell r2 j).date? with
    | none => simp
    | some d2 => exact Date.leB_total d1 d2

/-- `df.sort_values("time").reset_index(drop=True)` (the row index is not
tracked, so `reset_index` is invisible).  The `none` branch is unreachable
inside the normalizer, which only sorts after establishing `"time"`. -/
def sortByTimeName (df : DataFrame) : DataFrame :=
  match colIdx df.cols "time" with
  | some j => { cols := df.cols, rows := insSort (rowLe j) df.rows }
  | none => df

/-- `_normalize_dataframe_columns` itself.  `df.copy()` is value copying in
the model; the in-place column assignment therefore acts on the copy (see
`normalizeHeapBody` for the object-identity view). -/
def _normalize_dataframe_columns (sp : String → Option Date)
    (nq : ℚ → Option Date) (df : DataFrame) : DataFrame :=
  match colIdx df.cols "time" with
  | some j => sortByTimeName (renameWind (parseColAt sp nq df j))
  | none =>
    match colIdx df.cols "date" with
    | some j => sortByTimeName (renameWind (appendTimeCol sp nq df j))
    | none => df

/-- All rows carry one cell per column (every real `pandas` frame does). -/
def DataFrame.WF (df : DataFrame) : Prop :=
  ∀ r ∈ df.rows, r.length = df.cols.length

end WindData

namespace WindData

/-! ### Facts about the rename step -/

theorem renameFun_cases (cols : List String) (c : String) :
    renameFun cols c = c ∨ renameFun cols c = "windspeed_mean" ∨
      renameFun cols c = "windspeed_gust" := by
  unfold renameFun
  split_ifs <;> simp

theorem renameFun_eq_ws {cols : List String} {c : String}
    (h : renameFun cols c = "wind_speed") : c = "wind_speed" := by
  unfold renameFun at h
  split_ifs at h
  · exact absurd h (by decide)
  · exact absurd h (by decide)
  · exact h

theorem renameFun_eq_wg {cols : List String} {c : String}
    (h : renameFun cols c = "wind_gust") : c = "wind_gust" := by
  unfold renameFun at h
  split_ifs at h
  · exact absurd h (by decide)
  · exact absurd h (by decide)
  · exact h

theorem renameFun_wm (cols : List String) :
    renameFun cols "windspeed_mean" = "windspeed_mean" := by
  unfold renameFun
  split_ifs with h1 h2
  · exact absurd h1.2.2 (by decide)
  · exact absurd h2.2.2 (by decide)
  · rfl

theorem renameFun_wgu (cols : List String) :
    renameFun cols "windspeed_gust" = "windspeed_gust" := by
  unfold renameFun
  split_ifs with h1 h2
  · exact absurd h1.2.2 (by decide)
  · exact absurd h2.2.2 (by decide)
  · rfl

theorem renameFun_time (cols : List String) :
    renameFun cols "time" = "time" := by
  unfold renameFun
  split_ifs with h1 h2
  · exact absurd h1.2.2 (by decide)
  · exact absurd h2.2.2 (by decide)
  · rfl

theorem renameFun_ne_time {cols : List String} {c : String} (h : c ≠ "time") :
    renameFun cols c ≠ "time" := by
  rcases renameFun_cases cols c with hc | hc | hc <;> rw [hc]
  · exact h
  · decide
  · decide

theorem renameFun_ws_renamed {cols : List String}
    (h1 : "wind_speed" ∈ cols) (h2 : "windspeed_mean" ∉ cols) :
    renameFun cols "wind_speed" = "windspeed_mean" := by
  unfold renameFun
  rw [if_pos ⟨h1, h2, rfl⟩]

theorem renameFun_wg_renamed {cols : List String}
    (h1 : "wind_gust" ∈ cols) (h2 : "windspeed_gust" ∉ cols) :
    renameFun cols "wind_gust" = "windspeed_gust" := by
  unfold renameFun
  rw [if_neg (by rintro ⟨-, -, h⟩; exact absurd h (by decide)),
    if_pos ⟨h1, h2, rfl⟩]

/-- After a rename pass the mean-wind rename condition can no longer fire. -/
theorem rename_cond_mean_false (cols : List String) :
    ¬("wind_speed" ∈ cols.map (renameFun cols) ∧
      "windspeed_mean" ∉ cols.map (renameFun cols)) := by
  rintro ⟨hws, hwm⟩
  rw [List.mem_map] at hws
  obtain ⟨c, hc, hfc⟩ := hws
  have hcws : c = "wind_speed" := renameFun_eq_ws hfc
  subst hcws
  have hwm_in : "windspeed_mean" ∈ cols := by
    by_contra hno
    rw [renameFun_ws_renamed hc hno] at hfc
    exact absurd hfc (by decide)
  exact hwm (List.mem_map.mpr ⟨_, hwm_in, renameFun_wm cols⟩)

/-- After a rename pass the gust rename condition can no longer fire. -/
theorem rename_cond_gust_false (cols : List String) :
    ¬("wind_gust" ∈ cols.map (renameFun cols) ∧
      "windspeed_gust" ∉ cols.map (renameFun cols)) := by
  rintro ⟨hwg, hwgu⟩
  rw [List.mem_map] at hwg
  obtain ⟨c, hc, hfc⟩ := hwg
  have hcwg : c = "wind_gust" := renameFun_eq_wg hfc
  subst hcwg
  have hwgu_in : "windspeed_gust" ∈ cols := by
    by_contra hno
    rw [renameFun_wg_renamed hc hno] at hfc
    exact absurd hfc (by decide)
  exact hwgu (List.mem_map.mpr ⟨_, hwgu_in, renameFun_wgu cols⟩)

/-- When neither rename condition holds, `rename` is the identity. -/
theorem renameWind_eq_self_of (df : DataFrame)
    (h1 : ¬("wind_speed" ∈ df.cols ∧ "windspeed_mean" ∉ df.cols))
    (h2 : ¬("wind_gust" ∈ df.cols ∧ "windspeed_gust" ∉ df.cols)) :
    renameWind df = df := by
  have hid : ∀ c ∈ df.cols, renameFun df.cols c = c := by
    intro c _
    unfold renameFun
    rw [if_neg (by rintro ⟨ha, hb, -⟩; exact h1 ⟨ha, hb⟩),
      if_neg (by rintro ⟨ha, hb, -⟩; exact h2 ⟨ha, hb⟩)]
  cases df with
  | mk cols rows =>
    simp only [renameWind, DataFrame.mk.injEq, and_true]
    calc cols.map (renameFun cols) = cols.map id := List.map_congr_left hid
      _ = cols := List.map_id cols

/-- A frame whose columns already went through a rename pass is a fixed
point of `renameWind` (whatever its rows are). -/
theorem renameWind_of_renamed_cols (cols : List String) (rs : List (List Cell)) :
    renameWind ⟨cols.map (renameFun cols), rs⟩ = ⟨cols.map (renameFun cols), rs⟩ :=
  renameWind_eq_self_of _ (rename_cond_mean_false cols) (rename_cond_gust_false cols)

/-- The rename step moves no column, so `"time"` keeps its position. -/
theorem colIdx_map_renameFun_time (cols cs : List String) :
    colIdx (cs.map (renameFun cols)) "time" = colIdx cs "time" :=
  colIdx_map_of_not_target cs "time" (renameFun cols)
    (fun _ _ hc => renameFun_ne_time hc)
    (fun _ _ hc => hc ▸ renameFun_time cols)

theorem colIdx_lt_length {cs : List String} {t : String} {j : ℕ}
    (h : colIdx cs t = some j) : j < cs.length := by
  induction cs generalizing j with
  | nil => simp [colIdx] at h
  | cons c cs ih =>
    by_cases hc : c = t
    · subst hc
      have h0 : j = 0 := by simpa [colIdx] using h.symm
      simp [h0]
    · simp only [colIdx, hc, if_false] at h
      cases hcs : colIdx cs t with
      | none => rw [hcs] at h; exact absurd h (by simp)
      | some k =>
        rw [hcs] at h
        have hk := ih hcs
        have : k + 1 = j := by simpa using h
        simp only [List.length_cons]
        omega

theorem colIdx_append_self {cs : List String} {t : String} (h : t ∉ cs) :
    colIdx (cs ++ [t]) t = some cs.length := by
  induction cs with
  | nil => simp [colIdx]
  | cons c cs ih =>
    have hc : c ≠ t := fun hc => h (by simp [hc])
    have ih' := ih (fun hm => h (by simp [hm]))
    simp [colIdx, hc, ih']

end WindData

namespace WindData

/-! ### Cell-level facts used for idempotence -/

theorem set_getCell_self (r : List Cell) (j : ℕ) :
    r.set j (getCell r j) = r := by
  induction r generalizing j with
  | nil => rfl
  | cons a as ih =>
    cases j with
    | zero => simp [getCell]
    | succ n => simpa [getCell, List.getD] using ih n

theorem getCell_set (r : List Cell) (j : ℕ) (c : Cell) :
    getCell (r.set j c) j = if j < r.length then c else getCell r j := by
  induction r generalizing j with
  | nil => simp [getCell]
  | cons a as ih =>
    cases j with
    | zero => simp [getCell]
    | succ n => simpa [getCell, List.getD_cons_succ] using ih n

theorem getCell_of_length_le {r : List Cell} {j : ℕ} (h : r.length ≤ j) :
    getCell r j = Cell.na := by
  unfold getCell
  rw [List.getD_eq_default]
  exact h

theorem getCell_append_length (r : List Cell) (c : Cell) :
    getCell (r ++ [c]) r.length = c := by
  induction r with
  | nil => rfl
  | cons a as ih => simp [getCell, List.getD_cons_succ]

/-- A cell written by the parser is a fixed point of the parser. -/
theorem parseCell_set_parse (sp : String → Option Date) (nq : ℚ → Option Date)
    (r : List Cell) (j : ℕ) :
    parseCell sp nq (getCell (r.set j (parseCell sp nq (getCell r j))) j)
      = getCell (r.set j (parseCell sp nq (getCell r j))) j := by
  rw [getCell_set]
  split_ifs with h
  · exact parseCell_parseCell sp nq _
  · rw [getCell_of_length_le (le_of_not_lt h)]
    rfl

/-- Re-parsing column `j` is a no-op once every row's cell there is a parser
fixed point. -/
theorem parseColAt_eq_self (sp : String → Option Date) (nq : ℚ → Option Date)
    (df : DataFrame)
    (h : ∀ r ∈ df.rows, parseCell sp nq (getCell r j) = getCell r j) :
    parseColAt sp nq df j = df := by
  cases df with
  | mk cols rows =>
    simp only [parseColAt, DataFrame.mk.injEq, true_and]
    calc rows.map (fun r => r.set j (parseCell sp nq (getCell r j)))
        = rows.map id := by
          apply List.map_congr_left
          intro r hr
          rw [h r hr, set_getCell_self]
          rfl
      _ = rows := List.map_id rows

end WindData

namespace WindData

/-- A frame with a `"time"` column whose cells are parser fixed points, whose
columns are rename-stable, and whose rows are already time-sorted, is a fixed
point of the normalizer. -/
theorem normalize_fix (sp : String → Option Date) (nq : ℚ → Option Date)
    (df : DataFrame) {j : ℕ}
    (hj : colIdx df.cols "time" = some j)
    (hparsed : ∀ r ∈ df.rows, parseCell sp nq (getCell r j) = getCell r j)
    (hren : renameWind df = df)
    (hsorted : df.rows.Chain' (fun a b => rowLe j a b = true)) :
    _normalize_dataframe_columns sp nq df = df := by
  simp only [_normalize_dataframe_columns, hj]
  rw [parseColAt_eq_self sp nq df hparsed, hren]
  simp only [sortByTimeName, hj]
  rw [insSort_eq_self _ _ hsorted]

/-- C8 helper: what the normalizer produces in the `"time"`-present branch. -/
theorem normalize_eq_time_branch (sp : String → Option Date)
    (nq : ℚ → Option Date) (df : DataFrame) {j : ℕ}
    (hj : colIdx df.cols "time" = some j) :
    _normalize_dataframe_columns sp nq df =
      ⟨df.cols.map (renameFun df.cols),
        insSort (rowLe j) ((parseColAt sp nq df j).rows)⟩ := by
  have hB : (renameWind (parseColAt sp nq df j)).cols
      = df.cols.map (renameFun df.cols) := rfl
  have hBj : colIdx (renameWind (parseColAt sp nq df j)).cols "time" = some j := by
    rw [hB, colIdx_map_renameFun_time]
    exact hj
  simp only [_normalize_dataframe_columns, hj, sortByTimeName, hBj]
  rfl

/-- C8 helper: what the normalizer produces in the `"date"`-fallback branch. -/
theorem normalize_eq_date_branch (sp : String → Option Date)
    (nq : ℚ → Option Date) (df : DataFrame) {j : ℕ}
    (ht : colIdx df.cols "time" = none)
    (hj : colIdx df.cols "date" = some j) :
    _normalize_dataframe_columns sp nq df =
      ⟨(df.cols ++ ["time"]).map (renameFun (df.cols ++ ["time"])),
        insSort (rowLe df.cols.length) ((appendTimeCol sp nq df j).rows)⟩ := by
  have htm : "time" ∉ df.cols := (colIdx_eq_none_iff _ _).mp ht
  have hA : colIdx (df.cols ++ ["time"]) "time" = some df.cols.length :=
    colIdx_append_self htm
  have hB : (renameWind (appendTimeCol sp nq df j)).cols
      = (df.cols ++ ["time"]).map (renameFun (df.cols ++ ["time"])) := rfl
  have hBj : colIdx (renameWind (appendTimeCol sp nq df j)).cols "time"
      = some df.cols.length := by
    rw [hB, colIdx_map_renameFun_time]
    exact hA
  simp only [_normalize_dataframe_columns, ht, hj, sortByTimeName, hBj]
  rfl

end WindData

namespace WindData

/-- C8: `_normalize_dataframe_columns` is idempotent — for every input table
(whose rows carry one cell per column, as every pandas frame does) and every
behaviour of the external date parsers, applying the normalizer twice yields
the same table as applying it once: once a table carries a parsed `time`
column, renamed wind columns, and ascending time order, a second pass leaves
it unchanged. -/
theorem C8_normalize_idempotent (sp : String → Option Date)
    (nq : ℚ → Option Date) (df : DataFrame) (hwf : df.WF) :
    _normalize_dataframe_columns sp nq (_normalize_dataframe_columns sp nq df)
      = _normalize_dataframe_columns sp nq df := by
  cases ht : colIdx df.cols "time" with
  | some j =>
    rw [normalize_eq_time_branch sp nq df ht]
    have hNj : colIdx (df.cols.map (renameFun df.cols)) "time" = some j := by
      rw [colIdx_map_renameFun_time]
      exact ht
    apply normalize_fix sp nq _ hNj
    · intro r hr
      have hr' : r ∈ (parseColAt sp nq df j).rows :=
        ((insSort_perm _ _).mem_iff).mp hr
      simp only [parseColAt, List.mem_map] at hr'
      obtain ⟨r0, -, rfl⟩ := hr'
      exact parseCell_set_parse sp nq r0 j
    · exact renameWind_of_renamed_cols df.cols _
    · exact insSort_chain _ (rowLe_total j) _
  | none =>
    cases hd : colIdx df.cols "date" with
    | some j =>
      rw [normalize_eq_date_branch sp nq df ht hd]
      have hNj : colIdx ((df.cols ++ ["time"]).map
          (renameFun (df.cols ++ ["time"]))) "time" = some df.cols.length := by
        rw [colIdx_map_renameFun_time]
        exact colIdx_append_self ((colIdx_eq_none_iff _ _).mp ht)
      apply normalize_fix sp nq _ hNj
      · intro r hr
        have hr' : r ∈ (appendTimeCol sp nq df j).rows :=
          ((insSort_perm _ _).mem_iff).mp hr
        simp only [appendTimeCol, List.mem_map] at hr'
        obtain ⟨r0, hr0, rfl⟩ := hr'
        have hlen : r0.length = df.cols.length := hwf r0 hr0
        rw [← hlen, getCell_append_length]
        exact parseCell_parseCell sp nq _
      · exact renameWind_of_renamed_cols (df.cols ++ ["time"]) _
      · exact insSort_chain _ (rowLe_total df.cols.length) _
    | none =>
      have h1 : _normalize_dataframe_columns sp nq df = df := by
        simp only [_normalize_dataframe_columns, ht, hd]
      rw [h1, h1]

/-- A concrete raw table for the C8 witness: a `date` column of strings plus
an aliased `wind_speed` column, rows out of time order. -/
def witDf8 : DataFrame :=
  ⟨["date", "wind_speed"],
    [[Cell.str "2021-02-03", Cell.num 7], [Cell.str "2020-01-01", Cell.num 3],
     [Cell.str "oops", Cell.na]]⟩

/-- A concrete string-date parser for the C8 witness. -/
def witSp8 : String → Option Date := fun s =>
  if s = "2020-01-01" then some ⟨2020, 1, 1⟩
  else if s = "2021-02-03" then some ⟨2021, 2, 3⟩
  else none

theorem C8_witness :
    _normalize_dataframe_columns witSp8 (fun _ => none)
        (_normalize_dataframe_columns witSp8 (fun _ => none) witDf8)
      = _normalize_dataframe_columns witSp8 (fun _ => none) witDf8 :=
  C8_normalize_idempotent witSp8 (fun _ => none) witDf8
    (by unfold DataFrame.WF; decide)

end WindData

namespace WindData

/-! ## Object-identity view of `_normalize_dataframe_columns` (C9)

Python statements act on a store of frame objects.  References are indices
into the store; `df.copy()` allocates, `df["time"] = ...` updates the object
the local name `df` currently refers to in place, and `rename` /
`sort_values` / `reset_index` allocate fresh objects which `df` is rebound
to.  The function receives a reference `i` to the argument object and
returns the final store plus the reference to the returned object. -/

/-- The statement sequence of `_normalize_dataframe_columns`, acting on a
store of objects, for an argument object holding the value `arg`. -/
def normalizeHeapSteps (sp : String → Option Date) (nq : ℚ → Option Date)
    (store : List DataFrame) (arg : DataFrame) : List DataFrame × ℕ :=
  -- `df = df.copy()`: allocate a fresh object holding the argument's value;
  -- the local name `df` refers to it from here on
  let s1 := store ++ [arg]
  let c := store.length
  match colIdx arg.cols "time" with
  | some j =>
    -- `df["time"] = pd.to_datetime(df["time"], ...)`: in-place on object `c`
    let s2 := s1.set c (parseColAt sp nq arg j)
    -- `df = df.rename(...)`, `df = df.sort_values("time").reset_index(...)`:
    -- fresh object, `df` rebound to it; it is the returned object
    let v := sortByTimeName (renameWind (parseColAt sp nq arg j))
    (s2 ++ [v], s2.length)
  | none =>
    match colIdx arg.cols "date" with
    | some j =>
      -- `df["time"] = pd.to_datetime(df["date"], ...)`: in-place on object `c`
      let s2 := s1.set c (appendTimeCol sp nq arg j)
      let v := sortByTimeName (renameWind (appendTimeCol sp nq arg j))
      (s2 ++ [v], s2.length)
    | none =>
      -- `return df`: the untouched copy
      (s1, c)

/-- `_normalize_dataframe_columns` at the object level: the argument is the
object at reference `i` of the store. -/
def normalizeHeapBody (sp : String → Option Date) (nq : ℚ → Option Date)
    (store : List DataFrame) (i : ℕ) : List DataFrame × ℕ :=
  normalizeHeapSteps sp nq store (store.getD i ⟨[], []⟩)

theorem normalizeHeapSteps_take (sp : String → Option Date)
    (nq : ℚ → Option Date) (store : List DataFrame) (arg : DataFrame) :
    ((normalizeHeapSteps sp nq store arg).1).take store.length = store := by
  unfold normalizeHeapSteps
  cases colIdx arg.cols "time" with
  | some j =>
    simp [List.set_append, List.take_append]
  | none =>
    cases colIdx arg.cols "date" with
    | some j => simp [List.set_append, List.take_append]
    | none => simp [List.take_append]

theorem getD_append_pair {α : Type*} (l : List α) (a b d : α) :
    (l ++ [a, b]).getD (l.length + 1) d = b := by
  induction l with
  | nil => rfl
  | cons x xs ih => simpa using ih

theorem getD_append_one {α : Type*} (l : List α) (a d : α) :
    (l ++ [a]).getD l.length d = a := by
  induction l with
  | nil => rfl
  | cons x xs ih => simp

/-- The object the heap-level body returns holds exactly the value of the
pure normalizer (consistency of the two views). -/
theorem normalizeHeapSteps_result (sp : String → Option Date)
    (nq : ℚ → Option Date) (store : List DataFrame) (arg : DataFrame) :
    ((normalizeHeapSteps sp nq store arg).1).getD
        (normalizeHeapSteps sp nq store arg).2 ⟨[], []⟩
      = _normalize_dataframe_columns sp nq arg := by
  unfold normalizeHeapSteps _normalize_dataframe_columns
  cases colIdx arg.cols "time" with
  | some j =>
    simp only [List.set_append, List.length_append]
    simpa [List.set_append] using
      getD_append_pair store (parseColAt sp nq arg j)
        (sortByTimeName (renameWind (parseColAt sp nq arg j))) (⟨[], []⟩ : DataFrame)
  | none =>
    cases colIdx arg.cols "date" with
    | some j =>
      simpa [List.set_append] using
        getD_append_pair store (appendTimeCol sp nq arg j)
          (sortByTimeName (renameWind (appendTimeCol sp nq arg j)))
          (⟨[], []⟩ : DataFrame)
    | none =>
      simp [getD_append_one]

/-- C9: `_normalize_dataframe_columns` never mutates its argument.  At the
object level, every store cell that existed before the call — in particular
the argument frame at reference `i` — holds exactly the same columns, values
and row order afterwards: the first statement copies the frame and the
single in-place column assignment targets the copy. -/
theorem C9_normalize_no_mutation (sp : String → Option Date)
    (nq : ℚ → Option Date) (store : List DataFrame) (i : ℕ) :
    ((normalizeHeapBody sp nq store i).1).take store.length = store :=
  normalizeHeapSteps_take sp nq store (store.getD i ⟨[], []⟩)

end WindData

namespace WindData

/-! ## Return levels (`compute_return_level`, analysis_runner.py lines 48-83)

```python
if series is None or series.empty: return None
s = series.dropna()
if s.empty: return None
annual_max = s.groupby(s.index.year).max()
if len(annual_max) < min_years:
    print("[Warning] Series too short ...")
    return None
try:
    loc, scale = gumbel_r.fit(annual_max.values)
    p = 1.0 - 1.0 / float(return_period_years)
    rl = gumbel_r.ppf(p, loc=loc, scale=scale)
    return float(np.round(rl, 2))
except Exception as e:
    return None
```

A series is the `time`-indexed column `df_non_null_time[varname]`: a list of
(timestamp, float-or-NaN) pairs.  Floats are `ℚ`; the return level itself is
a real number.  `gumbel_r.fit` is an external MLE optimizer passed in as a
function (`none` = the optimizer raised, caught by the `except`). -/

/-- `series.dropna()`: keep the non-null values with their timestamps. -/
def dropna (s : List (Date × Option ℚ)) : List (Date × ℚ) :=
  s.filterMap fun p => p.2.map fun v => (p.1, v)

/-- The distinct calendar years of the index (`s.index.year` deduplicated). -/
def seriesYears (s : List (Date × ℚ)) : List ℤ :=
  (s.map fun p => p.1.year).dedup

/-- Ascending sort on integers (`groupby` sorts its keys). -/
def sortInts (l : List ℤ) : List ℤ :=
  insSort (fun a b => decide (a ≤ b)) l

/-- `s.groupby(s.index.year).max()`: one (year, max value) row per distinct
calendar year, years ascending. -/
def annualMax (s : List (Date × ℚ)) : List (ℤ × ℚ) :=
  (sortInts (seriesYears s)).filterMap fun y =>
    (((s.filter fun p => p.1.year = y).map fun p => p.2).max?).map fun m => (y, m)

/-- Outcome of the float-valued return-level computation: Python `None`, a
finite float, or one of the IEEE specials scipy produces at the boundary. -/
inductive RLRes where
  | absent
  | value (r : ℝ)
  | negInf
  | posInf
  | nan

/-- `np.round(x, 2)` on a finite real. -/
noncomputable def round2 (x : ℝ) : ℝ := (rhe (x * 100) : ℝ) / 100

/-- The closed form of `gumbel_r.ppf(p, loc, scale)` for `0 < p < 1`. -/
noncomputable def gumbelPPF (loc scale p : ℝ) : ℝ :=
  loc - scale * Real.log (-Real.log p)

/-- `gumbel_r.ppf` with scipy's boundary conventions: `NaN` outside `[0,1]`,
the infinite support endpoints at `p = 0` and `p = 1`. -/
noncomputable def gumbel_ppf (loc scale p : ℚ) : RLRes :=
  if p < 0 ∨ 1 < p then RLRes.nan
  else if p = 0 then RLRes.negInf
  else if p = 1 then RLRes.posInf
  else RLRes.value (gumbelPPF (loc : ℝ) (scale : ℝ) (p : ℝ))

/-- `float(np.round(rl, 2))`: rounds a finite value, fixes `±inf` and `NaN`. -/
noncomputable def roundRL : RLRes → RLRes
  | RLRes.value r => RLRes.value (round2 r)
  | r => r

/-- `compute_return_level`.  Returns the outcome paired with whether the
too-short-series warning was printed. -/
noncomputable def compute_return_level (fit : List ℚ → Option (ℚ × ℚ))
    (series : List (Date × Option ℚ)) (return_period_years : ℚ)
    (min_years : ℕ) : RLRes × Bool :=
  if series = [] then (RLRes.absent, false)
  else
    let s := dropna series
    if s = [] then (RLRes.absent, false)
    else
      let am := annualMax s
      if am.length < min_years then (RLRes.absent, true)
      else
        match fit (am.map fun p => p.2) with
        | none => (RLRes.absent, false)
        | some (loc, scale) =>
          if return_period_years = 0 then
            -- `1.0 / 0.0` raises ZeroDivisionError, caught by the `except`
            (RLRes.absent, false)
          else
            (roundRL (gumbel_ppf loc scale (1 - 1 / return_period_years)), false)

/-- `export_annual_max` (lines 854-867): `none` models `return False` (no
file written, the dropna'd series being empty); otherwise the exported
(Year, Max_value) table. -/
def export_annual_max (series : List (Date × Option ℚ)) :
    Option (List (ℤ × ℚ)) :=
  let s := dropna series
  if s = [] then none
  else some (annualMax s)

end WindData

namespace WindData

/-- C3: for a fixed fitted Gumbel location and positive scale, the rounded
return level `np.round(loc - scale*ln(-ln(1 - 1/T)), 2)` computed by
`compute_return_level` is non-decreasing in the return period:
`1 < T1 < T2` implies `rl(T1) ≤ rl(T2)`. -/
theorem C3_return_level_monotone (loc scale T1 T2 : ℝ)
    (hscale : 0 < scale) (hT1 : 1 < T1) (hT12 : T1 < T2) :
    round2 (gumbelPPF loc scale (1 - 1 / T1))
      ≤ round2 (gumbelPPF loc scale (1 - 1 / T2)) := by
  have hT1pos : (0 : ℝ) < T1 := by linarith
  have hT2pos : (0 : ℝ) < T2 := by linarith
  have hp1pos : 0 < 1 - 1 / T1 := by
    have : 1 / T1 < 1 := by
      rw [div_lt_one hT1pos]
      linarith
    linarith
  have hple : 1 - 1 / T1 ≤ 1 - 1 / T2 := by
    have : 1 / T2 ≤ 1 / T1 := by
      apply one_div_le_one_div_of_le hT1pos
      linarith
    linarith
  have hp2lt1 : 1 - 1 / T2 < 1 := by
    have : 0 < 1 / T2 := by positivity
    linarith
  have hlog2neg : Real.log (1 - 1 / T2) < 0 :=
    Real.log_neg (by linarith) hp2lt1
  have hloglog : Real.log (1 - 1 / T1) ≤ Real.log (1 - 1 / T2) :=
    Real.log_le_log hp1pos hple
  have hmono : gumbelPPF loc scale (1 - 1 / T1)
      ≤ gumbelPPF loc scale (1 - 1 / T2) := by
    unfold gumbelPPF
    have houter : Real.log (-Real.log (1 - 1 / T2))
        ≤ Real.log (-Real.log (1 - 1 / T1)) :=
      Real.log_le_log (by linarith) (by linarith)
    nlinarith [houter]
  unfold round2
  have := rhe_mono (mul_le_mul_of_nonneg_right hmono (by norm_num : (0:ℝ) ≤ 100))
  have hcast : (rhe (gumbelPPF loc scale (1 - 1 / T1) * 100) : ℝ)
      ≤ (rhe (gumbelPPF loc scale (1 - 1 / T2) * 100) : ℝ) := by
    exact_mod_cast this
  linarith

theorem C3_witness :
    round2 (gumbelPPF 10 2 (1 - 1 / 50)) ≤ round2 (gumbelPPF 10 2 (1 - 1 / 100)) :=
  C3_return_level_monotone 10 2 50 100 (by norm_num) (by norm_num) (by norm_num)

end WindData

namespace WindData

theorem mem_sortInts {l : List ℤ} {y : ℤ} : y ∈ sortInts l ↔ y ∈ l :=
  (insSort_perm _ l).mem_iff

theorem filter_year_ne_nil {s : List (Date × ℚ)} {y : ℤ}
    (hy : y ∈ seriesYears s) : (s.filter fun p => p.1.year = y) ≠ [] := by
  unfold seriesYears at hy
  rw [List.mem_dedup, List.mem_map] at hy
  obtain ⟨p, hp, hpy⟩ := hy
  intro hnil
  have hmem : p ∈ s.filter fun p => p.1.year = y :=
    List.mem_filter.mpr ⟨hp, by simp [hpy]⟩
  rw [hnil] at hmem
  exact absurd hmem (List.not_mem_nil p)

/-- The annual-maxima table has exactly one row per distinct calendar year
present, years ascending. -/
theorem annualMax_map_fst (s : List (Date × ℚ)) :
    (annualMax s).map Prod.fst = sortInts (seriesYears s) := by
  unfold annualMax
  have key : ∀ l : List ℤ, (∀ y ∈ l, y ∈ seriesYears s) →
      ((l.filterMap fun y =>
        (((s.filter fun p => p.1.year = y).map fun p => p.2).max?).map
          fun m => (y, m)).map Prod.fst) = l := by
    intro l
    induction l with
    | nil => simp
    | cons y ys ih =>
      intro h
      have hy := h y (by simp)
      have hne := filter_year_ne_nil hy
      have hmapne : ((s.filter fun p => p.1.year = y).map fun p => p.2) ≠ [] := by
        simpa using hne
      cases hmax : ((s.filter fun p => p.1.year = y).map fun p => p.2).max? with
      | none => exact absurd (List.max?_eq_none_iff.mp hmax) hmapne
      | some m =>
        simp [hmax, ih fun z hz => h z (by simp [hz])]
  exact key _ fun y hy => mem_sortInts.mp hy

theorem annualMax_length (s : List (Date × ℚ)) :
    (annualMax s).length = (seriesYears s).length := by
  have h1 : (annualMax s).length = ((annualMax s).map Prod.fst).length := by simp
  rw [h1, annualMax_map_fst]
  exact (insSort_perm _ _).length_eq

/-- C2: a daily series whose non-null values span at least one but fewer
than `min_years` distinct calendar years makes `compute_return_level` print
the warning and return `None` for every requested return period and every
behaviour of the external Gumbel fit, while `export_annual_max` still
exports the annual-maxima diagnostic table, one row per distinct year. -/
theorem C2_min_years_gate (series : List (Date × Option ℚ)) (min_years : ℕ)
    (hne : dropna series ≠ [])
    (hyears : (seriesYears (dropna series)).length < min_years) :
    (∀ fit T, compute_return_level fit series T min_years = (RLRes.absent, true)) ∧
    export_annual_max series = some (annualMax (dropna series)) ∧
    (annualMax (dropna series)).map Prod.fst
      = sortInts (seriesYears (dropna series)) := by
  have hser : series ≠ [] := by
    intro h
    exact hne (by simp [h, dropna])
  have hgate : (annualMax (dropna series)).length < min_years := by
    rw [annualMax_length]
    exact hyears
  refine ⟨?_, ?_, annualMax_map_fst _⟩
  · intro fit T
    simp [compute_return_level, hser, hne, hgate]
  · simp [export_annual_max, hne]

/-- C2 witness series: seven distinct years of non-null daily values. -/
def witSeries2 : List (Date × Option ℚ) :=
  [(⟨2001, 6, 1⟩, some 10), (⟨2002, 6, 1⟩, some 11), (⟨2003, 6, 1⟩, some 9),
   (⟨2004, 6, 1⟩, some 12), (⟨2005, 6, 1⟩, some 8), (⟨2006, 6, 1⟩, some 13),
   (⟨2007, 6, 1⟩, some 7)]

theorem C2_witness :
    compute_return_level (fun _ => none) witSeries2 50 10 = (RLRes.absent, true) ∧
    export_annual_max witSeries2 = some (annualMax (dropna witSeries2)) :=
  ⟨(C2_min_years_gate witSeries2 10 (by decide) (by decide)).1 (fun _ => none) 50,
   (C2_min_years_gate witSeries2 10 (by decide) (by decide)).2.1⟩

end WindData

namespace WindData

theorem roundRL_ne_value {x : RLRes} (hx : ∀ r, x ≠ RLRes.value r) :
    ∀ r, roundRL x ≠ RLRes.value r := by
  intro r
  cases x with
  | value v => exact absurd rfl (hx v)
  | absent => simp [roundRL]
  | negInf => simp [roundRL]
  | posInf => simp [roundRL]
  | nan => simp [roundRL]

theorem gumbel_ppf_ne_value (loc scale : ℚ) {p : ℚ}
    (hp : p = 0 ∨ p < 0 ∨ 1 < p) :
    ∀ r, gumbel_ppf loc scale p ≠ RLRes.value r := by
  intro r
  unfold gumbel_ppf
  rcases hp with hp | hp | hp
  · rw [hp]
    norm_num
    exact fun h => RLRes.noConfusion h
  · rw [if_pos (Or.inl hp)]
    exact fun h => RLRes.noConfusion h
  · rw [if_pos (Or.inr hp)]
    exact fun h => RLRes.noConfusion h

/-- C6 (amended): for `T ≤ 1`, `compute_return_level` never returns a
finite numeric return level and never raises; it is absent for `T = 0` (the
`ZeroDivisionError` is caught) and whenever the emptiness / minimum-years /
fit gates fire — but for other `T ≤ 1` that reach the `ppf` it returns
scipy's sentinel (`-inf` at `T = 1`, `NaN` otherwise) rather than absent. -/
theorem C6_T_le_one_guard (fit : List ℚ → Option (ℚ × ℚ))
    (series : List (Date × Option ℚ)) (T : ℚ) (min_years : ℕ) (hT : T ≤ 1) :
    (∀ r : ℝ, (compute_return_level fit series T min_years).1 ≠ RLRes.value r) ∧
    (T = 0 → (compute_return_level fit series T min_years).1 = RLRes.absent) := by
  by_cases h1 : series = []
  · constructor
    · intro r
      simp [compute_return_level, h1]
    · intro h0
      simp [compute_return_level, h1]
  · by_cases h2 : dropna series = []
    · constructor
      · intro r
        simp [compute_return_level, h1, h2]
      · intro h0
        simp [compute_return_level, h1, h2]
    · by_cases h3 : (annualMax (dropna series)).length < min_years
      · constructor
        · intro r
          simp [compute_return_level, h1, h2, h3]
        · intro h0
          simp [compute_return_level, h1, h2, h3]
      · cases hfit : fit ((annualMax (dropna series)).map fun p => p.2) with
        | none =>
          constructor
          · intro r
            simp [compute_return_level, h1, h2, h3, hfit]
          · intro h0
            simp [compute_return_level, h1, h2, h3, hfit]
        | some ls =>
          obtain ⟨loc, scale⟩ := ls
          by_cases h4 : T = 0
          · constructor
            · intro r
              simp [compute_return_level, h1, h2, h3, hfit, h4]
            · intro h0
              simp [compute_return_level, h1, h2, h3, hfit, h4]
          · have hp : (1 - 1 / T = 0) ∨ (1 - 1 / T < 0) ∨ (1 < 1 - 1 / T) := by
              rcases lt_trichotomy T 0 with hneg | hzero | hpos
              · right; right
                have hd : 1 / T < 0 := div_neg_of_pos_of_neg one_pos hneg
                linarith
              · exact absurd hzero h4
              · rcases eq_or_lt_of_le hT with h1eq | hlt
                · left
                  rw [h1eq]
                  norm_num
                · right; left
                  have hd : 1 < 1 / T := by
                    rw [lt_div_iff₀ hpos]
                    linarith
                  linarith
            have hred : (compute_return_level fit series T min_years).1
                = roundRL (gumbel_ppf loc scale (1 - 1 / T)) := by
              simp [compute_return_level, h1, h2, h3, hfit, h4]
            constructor
            · intro r
              rw [hred]
              exact roundRL_ne_value (gumbel_ppf_ne_value loc scale hp) r
            · intro h0
              exact absurd h0 h4

/-- C6 counterexample series: ten distinct years of non-null values, enough
to pass the minimum-years gate. -/
def witSeries6 : List (Date × Option ℚ) :=
  [(⟨2010, 1, 1⟩, some 10), (⟨2011, 1, 1⟩, some 11), (⟨2012, 1, 1⟩, some 12),
   (⟨2013, 1, 1⟩, some 13), (⟨2014, 1, 1⟩, some 14), (⟨2015, 1, 1⟩, some 15),
   (⟨2016, 1, 1⟩, some 16), (⟨2017, 1, 1⟩, some 17), (⟨2018, 1, 1⟩, some 18),
   (⟨2019, 1, 1⟩, some 19)]

/-- C6 counterexample: at `T = 1` with a series passing every gate and a
successful fit, `compute_return_level` returns `-inf` (scipy's
`ppf(0)`), not an absent result — the claimed defensive guard is absent
from the code. -/
theorem C6_counterexample :
    compute_return_level (fun _ => some (3, 2)) witSeries6 1 10
        = (RLRes.negInf, false) ∧
      RLRes.negInf ≠ RLRes.absent := by
  constructor
  · have h1 : ¬(witSeries6 = []) := by decide
    have h2 : ¬(dropna witSeries6 = []) := by decide
    have h3 : ¬((annualMax (dropna witSeries6)).length < 10) := by decide
    simp [compute_return_level, h1, h2, h3]
    norm_num [gumbel_ppf, roundRL]
  · intro h
    exact RLRes.noConfusion h

theorem C6_witness :
    (∀ r : ℝ, (compute_return_level (fun _ => some (3, 2)) witSeries6 1 10).1
        ≠ RLRes.value r) ∧
      ((1 : ℚ) = 0 →
        (compute_return_level (fun _ => some (3, 2)) witSeries6 1 10).1
          = RLRes.absent) :=
  C6_T_le_one_guard (fun _ => some (3, 2)) witSeries6 1 10 (by norm_num)

end WindData

namespace WindData

/-! ## Coverage (`run_analysis_for_site`, section 4, lines 337-369)

```python
for name, df in dataframes.items():
    if "time" not in df.columns: continue
    df_non_null_time = df.dropna(subset=["time"])
    if df_non_null_time.empty: continue
    time_min = df_non_null_time["time"].min()
    time_max = df_non_null_time["time"].max()
    nb_lignes = len(df_non_null_time)
    coverage_mean = df_non_null_time["windspeed_mean"].notna().mean() * 100.0
        if "windspeed_mean" in ... else np.nan   # likewise gust
    rows.append({..., round(coverage_mean, 1), round(coverage_gust, 1)})
```
-/

/-- Python `round(x, 1)` (half to even). -/
def round1 (q : ℚ) : ℚ := (rhe (q * 10) : ℚ) / 10

/-- `series.min()` over parsed timestamps. -/
def minDate : List Date → Option Date
  | [] => none
  | d :: ds => some (ds.foldl (fun m x => if x.leB m then x else m) d)

/-- `series.max()` over parsed timestamps. -/
def maxDate : List Date → Option Date
  | [] => none
  | d :: ds => some (ds.foldl (fun m x => if m.leB x then x else m) d)

/-- `df.dropna(subset=["time"])` where `j` is the time column position. -/
def nonNullTimeRows (df : DataFrame) (j : ℕ) : List (List Cell) :=
  df.rows.filter fun r => !(getCell r j).isNA

/-- Rows of `rows` whose cell in column `k` is non-null. -/
def notnaCount (rows : List (List Cell)) (k : ℕ) : ℕ :=
  (rows.filter fun r => !(getCell r k).isNA).length

/-- The `coverage_mean` / `coverage_gust` local: `notna().mean() * 100.0`
when the column exists, else `np.nan` (modelled `none`). -/
def coverage_pct (df : DataFrame) (j : ℕ) (v : String) : Option ℚ :=
  match colIdx df.cols v with
  | none => none
  | some k =>
    let nn := nonNullTimeRows df j
    some (((notnaCount nn k : ℚ) / (nn.length : ℚ)) * 100)

/-- One line of the coverage table (`resume_qualite.csv`). -/
structure CovRow where
  source : String
  firstDate : Option Date
  lastDate : Option Date
  rowCount : ℕ
  covMean : Option ℚ
  covGust : Option ℚ
deriving DecidableEq, Repr

/-- The coverage entry for one source, `none` when the source is skipped
(`continue`). -/
def coverageRow (name : String) (df : DataFrame) : Option CovRow :=
  match colIdx df.cols "time" with
  | none => none
  | some j =>
    let nn := nonNullTimeRows df j
    if nn = [] then none
    else
      some { source := name
             firstDate := minDate (nn.filterMap fun r => (getCell r j).date?)
             lastDate := maxDate (nn.filterMap fun r => (getCell r j).date?)
             rowCount := nn.length
             covMean := (coverage_pct df j "windspeed_mean").map round1
             covGust := (coverage_pct df j "windspeed_gust").map round1 }

theorem round1_bounds {q : ℚ} (h0 : 0 ≤ q) (h1 : q ≤ 100) :
    0 ≤ round1 q ∧ round1 q ≤ 100 := by
  unfold round1
  have hlow : (0 : ℤ) ≤ rhe (q * 10) := by
    have := rhe_mono (show (((0 : ℤ) : ℚ)) ≤ q * 10 by push_cast; linarith)
    rwa [rhe_intCast] at this
  have hhigh : rhe (q * 10) ≤ 1000 := by
    have := rhe_mono (show q * 10 ≤ (((1000 : ℤ) : ℚ)) by push_cast; linarith)
    rwa [rhe_intCast] at this
  constructor
  · positivity
  · rw [div_le_iff₀ (by norm_num : (0:ℚ) < 10)]
    exact_mod_cast le_trans hhigh (by norm_num)

theorem coverage_pct_bounds (df : DataFrame) (j : ℕ) (v : String) {q : ℚ}
    (h : coverage_pct df j v = some q) : 0 ≤ q ∧ q ≤ 100 := by
  unfold coverage_pct at h
  cases hk : colIdx df.cols v with
  | none => rw [hk] at h; exact absurd h (by simp)
  | some k =>
    rw [hk] at h
    simp only [Option.some.injEq] at h
    subst h
    have hcnt : notnaCount (nonNullTimeRows df j) k
        ≤ (nonNullTimeRows df j).length := List.length_filter_le _ _
    rcases Nat.eq_zero_or_pos (nonNullTimeRows df j).length with hz | hpos
    · rw [hz]
      norm_num
    · have hlenpos : (0 : ℚ) < ((nonNullTimeRows df j).length : ℚ) := by
        exact_mod_cast hpos
      constructor
      · positivity
      · rw [mul_comm, ← mul_div_assoc, div_le_iff₀ hlenpos]
        have : (notnaCount (nonNullTimeRows df j) k : ℚ)
            ≤ ((nonNullTimeRows df j).length : ℚ) := by exact_mod_cast hcnt
        nlinarith

/-- C5: for a source with a `time` column and at least one non-null time,
the computed `coverage_mean` equals 100 × the fraction of rows (among those
with non-null time) whose `windspeed_mean` is non-null; an absent variable
column yields an explicit missing value (not zero); and every reported
(rounded) coverage percentage lies in `[0, 100]`. -/
theorem C5_coverage (name : String) (df : DataFrame) {j : ℕ}
    (hj : colIdx df.cols "time" = some j)
    (hne : nonNullTimeRows df j ≠ []) :
    (∀ k, colIdx df.cols "windspeed_mean" = some k →
      coverage_pct df j "windspeed_mean"
        = some (100 * (((nonNullTimeRows df j).countP
              fun r => !(getCell r k).isNA : ℚ)
            / ((nonNullTimeRows df j).length : ℚ)))) ∧
    (colIdx df.cols "windspeed_mean" = none →
      ∃ row, coverageRow name df = some row ∧ row.covMean = none) ∧
    (∀ row, coverageRow name df = some row →
      (∀ q, row.covMean = some q → 0 ≤ q ∧ q ≤ 100) ∧
      (∀ q, row.covGust = some q → 0 ≤ q ∧ q ≤ 100)) := by
  refine ⟨?_, ?_, ?_⟩
  · intro k hk
    unfold coverage_pct
    rw [hk]
    have : ((nonNullTimeRows df j).countP fun r => !(getCell r k).isNA)
        = notnaCount (nonNullTimeRows df j) k := by
      unfold notnaCount
      rw [List.countP_eq_length_filter]
    rw [this]
    ring_nf
  · intro hnone
    refine ⟨{ source := name
              firstDate := minDate ((nonNullTimeRows df j).filterMap
                fun r => (getCell r j).date?)
              lastDate := maxDate ((nonNullTimeRows df j).filterMap
                fun r => (getCell r j).date?)
              rowCount := (nonNullTimeRows df j).length
              covMean := (coverage_pct df j "windspeed_mean").map round1
              covGust := (coverage_pct df j "windspeed_gust").map round1 },
      ?_, ?_⟩
    · simp only [coverageRow, hj, if_neg hne]
    · simp only [coverage_pct, hnone]
      rfl
  · intro row hrow
    simp only [coverageRow, hj, if_neg hne, Option.some.injEq] at hrow
    subst hrow
    constructor
    · intro q hq
      simp only [Option.map_eq_some'] at hq
      obtain ⟨q0, hq0, rfl⟩ := hq
      obtain ⟨h0, h1⟩ := coverage_pct_bounds df j "windspeed_mean" hq0
      exact round1_bounds h0 h1
    · intro q hq
      simp only [Option.map_eq_some'] at hq
      obtain ⟨q0, hq0, rfl⟩ := hq
      obtain ⟨h0, h1⟩ := coverage_pct_bounds df j "windspeed_gust" hq0
      exact round1_bounds h0 h1

end WindData

namespace WindData

/-- C5 witness frame: time plus a partially-null mean-wind column. -/
def witDf5a : DataFrame :=
  ⟨["time", "windspeed_mean"],
    [[Cell.dt ⟨2020, 1, 1⟩, Cell.num 5], [Cell.dt ⟨2020, 1, 2⟩, Cell.na],
     [Cell.dt ⟨2020, 1, 3⟩, Cell.num 7]]⟩

/-- C5 witness frame without the mean-wind column. -/
def witDf5b : DataFrame := ⟨["time"], [[Cell.dt ⟨2020, 1, 1⟩]]⟩

theorem C5_witness :
    coverage_pct witDf5a 0 "windspeed_mean"
        = some (100 * (((nonNullTimeRows witDf5a 0).countP
              fun r => !(getCell r 1).isNA : ℚ)
            / ((nonNullTimeRows witDf5a 0).length : ℚ))) ∧
    (∃ row, coverageRow "b" witDf5b = some row ∧ row.covMean = none) :=
  ⟨(C5_coverage "a" witDf5a
      (by decide : colIdx witDf5a.cols "time" = some 0) (by decide)).1 1 (by decide),
   (C5_coverage "b" witDf5b
      (by decide : colIdx witDf5b.cols "time" = some 0) (by decide)).2.1 (by decide)⟩

theorem minDate_isSome {l : List Date} (h : l ≠ []) : (minDate l).isSome := by
  cases l with
  | nil => exact absurd rfl h
  | cons d ds => simp [minDate]

theorem maxDate_isSome {l : List Date} (h : l ≠ []) : (maxDate l).isSome := by
  cases l with
  | nil => exact absurd rfl h
  | cons d ds => simp [maxDate]

/-- C10: a source whose table has a `time` column but only null/unparsable
time values is omitted from the coverage table entirely, exactly like a
source lacking a time column; and every coverage row that is produced (for a
well-typed time column) carries a present first date, a present last date,
and a row count of at least 1. -/
theorem C10_coverage_totality (name : String) (df : DataFrame) :
    (∀ j, colIdx df.cols "time" = some j →
        (∀ r ∈ df.rows, (getCell r j).isNA = true) →
        coverageRow name df = none) ∧
    (colIdx df.cols "time" = none → coverageRow name df = none) ∧
    (∀ j, colIdx df.cols "time" = some j →
        (∀ r ∈ df.rows, (getCell r j).isNA = true ∨ ∃ d, getCell r j = Cell.dt d) →
        ∀ row, coverageRow name df = some row →
          row.firstDate.isSome ∧ row.lastDate.isSome ∧ 1 ≤ row.rowCount) := by
  refine ⟨?_, ?_, ?_⟩
  · intro j hj hall
    have hnil : nonNullTimeRows df j = [] := by
      unfold nonNullTimeRows
      rw [List.filter_eq_nil_iff]
      intro r hr
      simp [hall r hr]
    simp [coverageRow, hj, hnil]
  · intro h
    simp [coverageRow, h]
  · intro j hj hty row hrow
    simp only [coverageRow, hj] at hrow
    by_cases hnil : nonNullTimeRows df j = []
    · rw [if_pos hnil] at hrow
      exact absurd hrow (by simp)
    · rw [if_neg hnil] at hrow
      simp only [Option.some.injEq] at hrow
      subst hrow
      obtain ⟨r, hrnn⟩ := List.exists_mem_of_ne_nil _ hnil
      have hrdf : r ∈ df.rows := (List.mem_filter.mp hrnn).1
      have hrna : ¬(getCell r j).isNA = true := by
        have := (List.mem_filter.mp hrnn).2
        simpa using this
      obtain ⟨d, hd⟩ := (hty r hrdf).resolve_left hrna
      have hdmem : d ∈ (nonNullTimeRows df j).filterMap
          fun r => (getCell r j).date? := by
        apply List.mem_filterMap.mpr
        exact ⟨r, hrnn, by rw [hd]; rfl⟩
      have hfne : ((nonNullTimeRows df j).filterMap
          fun r => (getCell r j).date?) ≠ [] :=
        List.ne_nil_of_mem hdmem
      refine ⟨minDate_isSome hfne, maxDate_isSome hfne, ?_⟩
      show 1 ≤ (nonNullTimeRows df j).length
      exact List.length_pos.mpr hnil

/-- C10 witness frame: a `time` column whose values are all null. -/
def witDf10a : DataFrame := ⟨["time", "windspeed_mean"], [[Cell.na, Cell.num 4]]⟩

/-- C10 witness frame lacking a `time` column. -/
def witDf10b : DataFrame := ⟨["windspeed_mean"], [[Cell.num 4]]⟩

theorem C10_witness :
    coverageRow "a" witDf10a = none ∧
    coverageRow "b" witDf10b = none ∧
    (∀ row, coverageRow "c" witDf5a = some row →
      row.firstDate.isSome ∧ row.lastDate.isSome ∧ 1 ≤ row.rowCount) :=
  ⟨(C10_coverage_totality "a" witDf10a).1 0 (by decide) (by decide),
   (C10_coverage_totality "b" witDf10b).2.1 (by decide),
   (C10_coverage_totality "c" witDf5a).2.2 0 (by decide)
     (by
       intro r hr
       simp [witDf5a] at hr
       rcases hr with rfl | rfl | rfl
       · exact Or.inr ⟨⟨2020, 1, 1⟩, rfl⟩
       · exact Or.inr ⟨⟨2020, 1, 2⟩, rfl⟩
       · exact Or.inr ⟨⟨2020, 1, 3⟩, rfl⟩)⟩

end WindData

namespace WindData

/-! ## Extreme days (`analyze_extreme_days`, lines 736-833)

```python
for name, df in dataframes.items():
    if varname not in df.columns or "time" not in df.columns: continue
    d = df.dropna(subset=["time", varname]).copy()
    if d.empty: continue
    d["year"] = d["time"].dt.year
    extreme = d[d[varname] > bc_threshold]
    if extreme.empty:
        summary_rows.append({..., 0, np.nan, ""}); continue
    nb_extreme = len(extreme)
    max_val = extreme[varname].max()
    idx_max = extreme[varname].idxmax()
    date_max = extreme.loc[idx_max, "time"].date()
    summary_rows.append({..., nb_extreme, max_val, date_max})
    yearly_counts = extreme.groupby("year").size()
    per_year_rows += [(name, varname, int(year), int(count)) ...]
pivot = df_year.pivot_table(index="Year", columns="Source",
                            values="Nb_extreme_days", aggfunc="sum",
                            fill_value=0).sort_index()
```
-/

/-- `df.dropna(subset=["time", varname])` with the two column positions. -/
def dropna2 (df : DataFrame) (j k : ℕ) : List (List Cell) :=
  df.rows.filter fun r => !(getCell r j).isNA && !(getCell r k).isNA

/-- The (timestamp, value) pairs of the restricted rows.  On well-typed
frames (time cells `dt`/`na`, variable cells `num`/`na`) this lists exactly
the rows of `dropna2`. -/
def extremeData (df : DataFrame) (j k : ℕ) : List (Date × ℚ) :=
  (dropna2 df j k).filterMap fun r =>
    ((getCell r j).date?).bind fun d => ((getCell r k).num?).map fun v => (d, v)

/-- `d[d[varname] > bc_threshold]`. -/
def extremeRows (d : List (Date × ℚ)) (thr : ℚ) : List (Date × ℚ) :=
  d.filter fun p => thr < p.2

/-- `extreme[varname].max()` (pandas reduction over a non-empty series). -/
def seriesMax : List ℚ → Option ℚ
  | [] => none
  | v :: vs => some (vs.foldl max v)

/-- The running best of `idxmax`: replaced only on strict improvement, so
the first occurrence of the maximum wins. -/
def idxmaxAux : List (Date × ℚ) → (Date × ℚ) → Date × ℚ
  | [], best => best
  | p :: ps, best => idxmaxAux ps (if best.2 < p.2 then p else best)

/-- `extreme.loc[extreme[varname].idxmax(), "time"].date()`. -/
def idxmaxDate : List (Date × ℚ) → Option Date
  | [] => none
  | p :: ps => some (idxmaxAux ps p).1

/-- One line of the extreme-day summary table. -/
structure SummaryRow where
  source : String
  varname : String
  bcThreshold : ℚ
  nbExtremeDays : ℕ
  maxExtremeValue : Option ℚ
  dateMaxValue : Option Date
deriving DecidableEq, Repr

/-- The summary row built from the restricted data of one source. -/
def mkSummaryRow (name varname : String) (thr : ℚ) (d : List (Date × ℚ)) :
    SummaryRow :=
  let extreme := extremeRows d thr
  if extreme = [] then ⟨name, varname, thr, 0, none, none⟩
  else
    ⟨name, varname, thr, extreme.length,
      seriesMax (extreme.map fun p => p.2), idxmaxDate extreme⟩

/-- The summary entry for one source; `none` when the source is skipped
(missing column or empty restriction). -/
def summaryRow? (name varname : String) (thr : ℚ) (df : DataFrame) :
    Option SummaryRow :=
  match colIdx df.cols varname, colIdx df.cols "time" with
  | some k, some j =>
    if dropna2 df j k = [] then none
    else some (mkSummaryRow name varname thr (extremeData df j k))
  | _, _ => none

/-- The whole summary table for one variable. -/
def analyze_extreme_days_summary (dfs : List (String × DataFrame))
    (varname : String) (thr : ℚ) : List SummaryRow :=
  dfs.filterMap fun nd => summaryRow? nd.1 varname thr nd.2

/-- The `(Source, Year, count)` per-year rows of one source
(`extreme.groupby("year").size()`, keys ascending). -/
def perYearSource (name : String) (df : DataFrame) (varname : String)
    (thr : ℚ) : List (String × ℤ × ℕ) :=
  match colIdx df.cols varname, colIdx df.cols "time" with
  | some k, some j =>
    if dropna2 df j k = [] then []
    else
      let extreme := extremeRows (extremeData df j k) thr
      (sortInts ((extreme.map fun p => p.1.year).dedup)).map fun y =>
        (name, y, (extreme.filter fun p => p.1.year = y).length)
  | _, _ => []

/-- All per-year rows (`per_year_rows`). -/
def perYearRows (dfs : List (String × DataFrame)) (varname : String)
    (thr : ℚ) : List (String × ℤ × ℕ) :=
  dfs.flatMap fun nd => perYearSource nd.1 nd.2 varname thr

/-- Row labels of the pivot table: the distinct years, ascending
(`pivot_table(...).sort_index()`). -/
def pivotYears (rows : List (String × ℤ × ℕ)) : List ℤ :=
  sortInts ((rows.map fun r => r.2.1).dedup)

/-- One cell of the year × source matrix (`aggfunc="sum", fill_value=0`). -/
def pivotCell (rows : List (String × ℤ × ℕ)) (y : ℤ) (src : String) : ℕ :=
  ((rows.filter fun r => r.1 = src ∧ r.2.1 = y).map fun r => r.2.2).sum

end WindData

namespace WindData

/-- C7 (amended): a source whose table has the `time` and variable columns
and at least one row where both are non-null, but no row exceeding the
threshold, still gets a summary row with count 0 and empty max/date fields,
and that row appears in the summary table. -/
theorem C7_zero_exceedance_row (dfs : List (String × DataFrame))
    (name : String) (df : DataFrame) (varname : String) (thr : ℚ) {j k : ℕ}
    (hmem : (name, df) ∈ dfs)
    (hk : colIdx df.cols varname = some k)
    (hj : colIdx df.cols "time" = some j)
    (hd : dropna2 df j k ≠ [])
    (hnoex : extremeRows (extremeData df j k) thr = []) :
    summaryRow? name varname thr df
        = some ⟨name, varname, thr, 0, none, none⟩ ∧
    (⟨name, varname, thr, 0, none, none⟩ : SummaryRow)
        ∈ analyze_extreme_days_summary dfs varname thr := by
  have hrow : summaryRow? name varname thr df
      = some ⟨name, varname, thr, 0, none, none⟩ := by
    simp only [summaryRow?, hk, hj, if_neg hd, mkSummaryRow, hnoex, if_pos]
  refine ⟨hrow, ?_⟩
  apply List.mem_filterMap.mpr
  exact ⟨(name, df), hmem, hrow⟩

/-- C7 counterexample frame: both columns present, but the only row has a
null variable value, so the restriction is empty. -/
def witDf7 : DataFrame :=
  ⟨["time", "windspeed_mean"], [[Cell.dt ⟨2020, 1, 1⟩, Cell.na]]⟩

/-- C7 counterexample: the source has both columns yet is omitted from the
summary table — no zero-count row is emitted when every row is dropped by
the null restriction. -/
theorem C7_counterexample :
    colIdx witDf7.cols "time" = some 0 ∧
    colIdx witDf7.cols "windspeed_mean" = some 1 ∧
    analyze_extreme_days_summary [("meteostat1", witDf7)] "windspeed_mean" 25
      = [] := by
  decide

/-- C7 witness frame: one valid row below the threshold. -/
def witDf7b : DataFrame :=
  ⟨["time", "windspeed_mean"], [[Cell.dt ⟨2020, 1, 1⟩, Cell.num 10]]⟩

theorem C7_witness :
    summaryRow? "noaa" "windspeed_mean" 25 witDf7b
        = some ⟨"noaa", "windspeed_mean", 25, 0, none, none⟩ ∧
    (⟨"noaa", "windspeed_mean", 25, 0, none, none⟩ : SummaryRow)
        ∈ analyze_extreme_days_summary [("noaa", witDf7b)] "windspeed_mean" 25 :=
  C7_zero_exceedance_row [("noaa", witDf7b)] "noaa" witDf7b "windspeed_mean" 25
    (by decide)
    (by decide : colIdx witDf7b.cols "windspeed_mean" = some 1)
    (by decide : colIdx witDf7b.cols "time" = some 0)
    (by decide) (by decide)

end WindData

namespace WindData

theorem le_foldl_max (vs : List ℚ) (v : ℚ) : v ≤ vs.foldl max v := by
  induction vs generalizing v with
  | nil => simp
  | cons w ws ih => exact le_trans (le_max_left v w) (ih (max v w))

theorem mem_le_foldl_max {vs : List ℚ} {w : ℚ} (hw : w ∈ vs) (v : ℚ) :
    w ≤ vs.foldl max v := by
  induction vs generalizing v with
  | nil => cases hw
  | cons x xs ih =>
    rcases List.mem_cons.mp hw with rfl | hx
    · exact le_trans (le_max_right v w) (le_foldl_max xs _)
    · exact ih hx _

theorem foldl_max_mem (vs : List ℚ) (v : ℚ) : vs.foldl max v ∈ v :: vs := by
  induction vs generalizing v with
  | nil => simp
  | cons w ws ih =>
    simp only [List.foldl_cons]
    rcases List.mem_cons.mp (ih (max v w)) with h | h
    · rcases max_choice v w with hm | hm
      · rw [h, hm]
        simp
      · rw [h, hm]
        simp
    · simp [h]

/-- The `idxmax` scan keeps the first occurrence of the maximum: its result
bounds every value, sits in the list, and everything strictly before it is
strictly below it. -/
theorem idxmaxAux_spec (l : List (Date × ℚ)) :
    ∀ best : Date × ℚ,
      (∀ q ∈ best :: l, q.2 ≤ (idxmaxAux l best).2) ∧
      ∃ l1 l2, best :: l = l1 ++ (idxmaxAux l best) :: l2 ∧
        ∀ q ∈ l1, q.2 < (idxmaxAux l best).2 := by
  induction l with
  | nil =>
    intro best
    exact ⟨by simp [idxmaxAux], [], [], by simp [idxmaxAux], by simp⟩
  | cons p ps ih =>
    intro best
    simp only [idxmaxAux]
    by_cases hb : best.2 < p.2
    · rw [if_pos hb]
      obtain ⟨hle, l1, l2, hsplit, hlt⟩ := ih p
      refine ⟨?_, best :: l1, l2, ?_, ?_⟩
      · intro q hq
        rcases List.mem_cons.mp hq with rfl | hq2
        · exact le_trans (le_of_lt hb) (hle p (by simp))
        · exact hle q hq2
      · rw [List.cons_append, ← hsplit]
      · intro q hq
        rcases List.mem_cons.mp hq with rfl | hq2
        · exact lt_of_lt_of_le hb (hle p (by simp))
        · exact hlt q hq2
    · rw [if_neg hb]
      obtain ⟨hle, l1, l2, hsplit, hlt⟩ := ih best
      cases l1 with
      | nil =>
        rw [List.nil_append] at hsplit
        injection hsplit with hb1 hb2
        refine ⟨?_, [], p :: ps, ?_, by simp⟩
        · intro q hq
          rcases List.mem_cons.mp hq with rfl | hq2
          · exact hle q (by simp)
          · rcases List.mem_cons.mp hq2 with rfl | hq3
            · exact le_trans (le_of_not_lt hb) (hle best (by simp))
            · exact hle q (by simp [hq3])
        · rw [List.nil_append, ← hb1]
      | cons a l1' =>
        rw [List.cons_append] at hsplit
        injection hsplit with hb1 hps
        subst hb1
        refine ⟨?_, best :: p :: l1', l2, ?_, ?_⟩
        · intro q hq
          rcases List.mem_cons.mp hq with rfl | hq2
          · exact hle q (by simp)
          · rcases List.mem_cons.mp hq2 with rfl | hq3
            · exact le_trans (le_of_not_lt hb) (hle best (by simp))
            · exact hle q (by simp [hq3])
        · rw [List.cons_append, List.cons_append, ← hps]
        · intro q hq
          rcases List.mem_cons.mp hq with rfl | hq2
          · exact hlt q (by simp)
          · rcases List.mem_cons.mp hq2 with rfl | hq3
            · exact lt_of_le_of_lt (le_of_not_lt hb) (hlt best (by simp))
            · exact hlt q (by simp [hq3])

end WindData

namespace WindData

/-- C1 (amended): for every source whose table has the `time` and variable
columns and at least one row with both non-null, the summary table has a row
whose exceedance count is the number of restricted rows strictly above the
threshold, and — when any exceedance exists — whose max field is the maximum
exceeding value and whose date field is the timestamp of the first row (in
index order) attaining that maximum. -/
theorem C1_extreme_summary (dfs : List (String × DataFrame)) (name : String)
    (df : DataFrame) (varname : String) (thr : ℚ) {j k : ℕ}
    (hmem : (name, df) ∈ dfs)
    (hk : colIdx df.cols varname = some k)
    (hj : colIdx df.cols "time" = some j)
    (hd : dropna2 df j k ≠ []) :
    ∃ row ∈ analyze_extreme_days_summary dfs varname thr,
      row.source = name ∧ row.varname = varname ∧ row.bcThreshold = thr ∧
      row.nbExtremeDays
          = (extremeData df j k).countP (fun p => thr < p.2) ∧
      (extremeRows (extremeData df j k) thr ≠ [] →
        ∃ M D, row.maxExtremeValue = some M ∧ row.dateMaxValue = some D ∧
          (∀ p ∈ extremeRows (extremeData df j k) thr, p.2 ≤ M) ∧
          ∃ l1 l2, extremeRows (extremeData df j k) thr = l1 ++ (D, M) :: l2 ∧
            ∀ p ∈ l1, p.2 < M) := by
  have hfix : (mkSummaryRow name varname thr (extremeData df j k)).source = name ∧
      (mkSummaryRow name varname thr (extremeData df j k)).varname = varname ∧
      (mkSummaryRow name varname thr (extremeData df j k)).bcThreshold = thr := by
    simp only [mkSummaryRow]
    split_ifs <;> exact ⟨rfl, rfl, rfl⟩
  have hnb : (mkSummaryRow name varname thr (extremeData df j k)).nbExtremeDays
      = (extremeRows (extremeData df j k) thr).length := by
    simp only [mkSummaryRow]
    split_ifs with h
    · rw [h]
      rfl
    · rfl
  refine ⟨mkSummaryRow name varname thr (extremeData df j k), ?_, hfix.1,
    hfix.2.1, hfix.2.2, ?_, ?_⟩
  · apply List.mem_filterMap.mpr
    refine ⟨(name, df), hmem, ?_⟩
    simp only [summaryRow?, hk, hj, if_neg hd]
  · rw [hnb, List.countP_eq_length_filter]
    rfl
  · intro hex
    have hrow : mkSummaryRow name varname thr (extremeData df j k)
        = ⟨name, varname, thr, (extremeRows (extremeData df j k) thr).length,
            seriesMax ((extremeRows (extremeData df j k) thr).map fun p => p.2),
            idxmaxDate (extremeRows (extremeData df j k) thr)⟩ := by
      simp only [mkSummaryRow]
      rw [if_neg hex]
    rw [hrow]
    cases hE : extremeRows (extremeData df j k) thr with
    | nil => exact absurd hE hex
    | cons e es =>
      obtain ⟨hle, l1, l2, hsplit, hlt⟩ := idxmaxAux_spec es e
      set r := idxmaxAux es e with hr
      have hM0 : seriesMax ((e :: es).map fun p => p.2)
          = some ((es.map fun p => p.2).foldl max e.2) := rfl
      set M0 := (es.map fun p => p.2).foldl max e.2 with hM0d
      have hrmem : r ∈ e :: es := by
        rw [hsplit]
        simp
      have hrle : r.2 ≤ M0 := by
        rcases List.mem_cons.mp hrmem with h | h
        · rw [h]
          exact le_foldl_max _ _
        · exact mem_le_foldl_max (List.mem_map.mpr ⟨r, h, rfl⟩) _
      have hM0mem : M0 ∈ (e :: es).map fun p => p.2 := by
        have := foldl_max_mem (es.map fun p => p.2) e.2
        simpa using this
      have hM0le : M0 ≤ r.2 := by
        obtain ⟨q, hq, hqv⟩ := List.mem_map.mp hM0mem
        rw [← hqv]
        exact hle q hq
      have hreq : r.2 = M0 := le_antisymm hrle hM0le
      refine ⟨M0, r.1, hM0, rfl, ?_, l1, l2, ?_, ?_⟩
      · intro p hp
        rcases List.mem_cons.mp hp with rfl | h
        · exact le_foldl_max _ _
        · exact mem_le_foldl_max (List.mem_map.mpr ⟨p, h, rfl⟩) _
      · rw [← hreq]
        exact hsplit
      · intro p hp
        rw [← hreq]
        exact hlt p hp

/-- C1 counterexample frame: both columns present, every variable value
null, so the restricted set is empty. -/
def witDf1 : DataFrame :=
  ⟨["time", "windspeed_mean"],
    [[Cell.dt ⟨2019, 5, 4⟩, Cell.na], [Cell.na, Cell.na]]⟩

/-- C1 counterexample: the summary table contains no row for this source at
all, so it does not report `Nb_extreme_days = 0` as the claim demands. -/
theorem C1_counterexample :
    colIdx witDf1.cols "time" = some 0 ∧
    colIdx witDf1.cols "windspeed_mean" = some 1 ∧
    analyze_extreme_days_summary [("era5", witDf1)] "windspeed_mean" 20
      = [] := by
  decide

/-- C1 witness frame: spec Scenario C — values 20, 26, 24, 30 against
threshold 25. -/
def witDf1b : DataFrame :=
  ⟨["time", "windspeed_mean"],
    [[Cell.dt ⟨2020, 1, 1⟩, Cell.num 20], [Cell.dt ⟨2020, 1, 2⟩, Cell.num 26],
     [Cell.dt ⟨2020, 1, 3⟩, Cell.num 24], [Cell.dt ⟨2020, 1, 4⟩, Cell.num 30]]⟩

theorem C1_witness :
    ∃ row ∈ analyze_extreme_days_summary [("era5", witDf1b)] "windspeed_mean" 25,
      row.source = "era5" ∧ row.varname = "windspeed_mean" ∧
      row.bcThreshold = 25 ∧
      row.nbExtremeDays
          = (extremeData witDf1b 0 1).countP (fun p => (25 : ℚ) < p.2) ∧
      (extremeRows (extremeData witDf1b 0 1) 25 ≠ [] →
        ∃ M D, row.maxExtremeValue = some M ∧ row.dateMaxValue = some D ∧
          (∀ p ∈ extremeRows (extremeData witDf1b 0 1) 25, p.2 ≤ M) ∧
          ∃ l1 l2, extremeRows (extremeData witDf1b 0 1) 25 = l1 ++ (D, M) :: l2 ∧
            ∀ p ∈ l1, p.2 < M) :=
  C1_extreme_summary [("era5", witDf1b)] "era5" witDf1b "windspeed_mean" 25
    (by decide)
    (by decide : colIdx witDf1b.cols "windspeed_mean" = some 1)
    (by decide : colIdx witDf1b.cols "time" = some 0)
    (by decide)

end WindData

namespace WindData

theorem sortInts_chain_le (l : List ℤ) :
    (sortInts l).Chain' fun a b => (decide (a ≤ b)) = true :=
  insSort_chain _ (fun a b => by
    rcases le_total a b with h | h
    · exact Or.inl (by simpa using h)
    · exact Or.inr (by simpa using h)) l

theorem sortInts_nodup {l : List ℤ} (h : l.Nodup) : (sortInts l).Nodup :=
  ((insSort_perm _ l).nodup_iff).mpr h

theorem chain'_lt_of_le_nodup : ∀ {l : List ℤ},
    (l.Chain' fun a b => (decide (a ≤ b)) = true) → l.Nodup →
    l.Chain' (· < ·) := by
  intro l
  induction l with
  | nil => simp
  | cons x xs ih =>
    intro hc hn
    rw [List.chain'_cons'] at hc ⊢
    refine ⟨?_, ih hc.2 (List.nodup_cons.mp hn).2⟩
    intro y hy
    have h1 := hc.1 y hy
    simp only [decide_eq_true_eq] at h1
    have hy_mem : y ∈ xs := List.mem_of_mem_head? hy
    have hne : x ≠ y := fun he => (List.nodup_cons.mp hn).1 (he ▸ hy_mem)
    exact lt_of_le_of_ne h1 hne

/-- Pivot rows are the distinct years sorted strictly ascending. -/
theorem pivotYears_sorted (rows : List (String × ℤ × ℕ)) :
    (pivotYears rows).Chain' (· < ·) :=
  chain'_lt_of_le_nodup (sortInts_chain_le _) (sortInts_nodup (List.nodup_dedup _))

theorem perYearSource_fst {n : String} {d : DataFrame} {v : String} {t : ℚ}
    {rr : String × ℤ × ℕ} (hrr : rr ∈ perYearSource n d v t) : rr.1 = n := by
  unfold perYearSource at hrr
  split at hrr
  · split at hrr
    · exact absurd hrr (List.not_mem_nil rr)
    · obtain ⟨y, -, rfl⟩ := List.mem_map.mp hrr
      rfl
  · exact absurd hrr (List.not_mem_nil rr)

/-- With distinct source names, the per-year rows carrying `name` are
exactly the contribution of that source. -/
theorem perYearRows_filter_name {dfs : List (String × DataFrame)}
    {name : String} {df : DataFrame} (varname : String) (thr : ℚ)
    (hnodup : (dfs.map Prod.fst).Nodup) (hmem : (name, df) ∈ dfs) :
    (perYearRows dfs varname thr).filter (fun r => decide (r.1 = name))
      = perYearSource name df varname thr := by
  obtain ⟨s1, s2, rfl⟩ := List.append_of_mem hmem
  have hmapn : ((s1.map Prod.fst) ++ name :: (s2.map Prod.fst)).Nodup := by
    simpa using hnodup
  have hn1 : ∀ nd ∈ s1, nd.1 ≠ name := by
    intro nd hnd he
    have hdisj := List.disjoint_of_nodup_append hmapn
    exact hdisj (List.mem_map.mpr ⟨nd, hnd, he⟩) (by simp)
  have hn2 : ∀ nd ∈ s2, nd.1 ≠ name := by
    intro nd hnd he
    have h2 := (List.nodup_append.mp hmapn).2.1
    rw [List.nodup_cons] at h2
    exact h2.1 (List.mem_map.mpr ⟨nd, hnd, he⟩)
  unfold perYearRows
  rw [List.flatMap_append, List.flatMap_cons, List.filter_append,
    List.filter_append]
  have hf1 : ((s1.flatMap fun nd => perYearSource nd.1 nd.2 varname thr).filter
      fun r => decide (r.1 = name)) = [] := by
    rw [List.filter_eq_nil_iff]
    intro rr hrr
    obtain ⟨nd, hnd, hrr2⟩ := List.mem_flatMap.mp hrr
    simp [perYearSource_fst hrr2, hn1 nd hnd]
  have hf2 : ((s2.flatMap fun nd => perYearSource nd.1 nd.2 varname thr).filter
      fun r => decide (r.1 = name)) = [] := by
    rw [List.filter_eq_nil_iff]
    intro rr hrr
    obtain ⟨nd, hnd, hrr2⟩ := List.mem_flatMap.mp hrr
    simp [perYearSource_fst hrr2, hn2 nd hnd]
  have hf0 : ((perYearSource name df varname thr).filter
      fun r => decide (r.1 = name)) = perYearSource name df varname thr := by
    rw [List.filter_eq_self]
    intro rr hrr
    simp [perYearSource_fst hrr]
  rw [hf1, hf2, hf0, List.nil_append, List.append_nil]

end WindData

namespace WindData

theorem perYearSource_eq {name : String} {df : DataFrame} {varname : String}
    {thr : ℚ} {j k : ℕ}
    (hk : colIdx df.cols varname = some k)
    (hj : colIdx df.cols "time" = some j)
    (hd : dropna2 df j k ≠ []) :
    perYearSource name df varname thr
      = (sortInts (((extremeRows (extremeData df j k) thr).map
            fun p => p.1.year).dedup)).map
          fun y => (name, y, ((extremeRows (extremeData df j k) thr).filter
            fun p => p.1.year = y).length) := by
  simp only [perYearSource, hk, hj, if_neg hd]

theorem mkSummaryRow_nb (n v : String) (t : ℚ) (d : List (Date × ℚ)) :
    (mkSummaryRow n v t d).nbExtremeDays = (extremeRows d t).length := by
  simp only [mkSummaryRow]
  split_ifs with h
  · rw [h]
    rfl
  · rfl

theorem mkSummaryRow_source (n v : String) (t : ℚ) (d : List (Date × ℚ)) :
    (mkSummaryRow n v t d).source = n := by
  simp only [mkSummaryRow]
  split_ifs <;> rfl

/-- The matrix cell of a given source: its own per-year count if the source
had exceedances that year, and the zero fill otherwise. -/
theorem pivotCell_src {dfs : List (String × DataFrame)} {name : String}
    {df : DataFrame} {varname : String} {j k : ℕ} (thr : ℚ)
    (hnodup : (dfs.map Prod.fst).Nodup) (hmem : (name, df) ∈ dfs)
    (hk : colIdx df.cols varname = some k)
    (hj : colIdx df.cols "time" = some j)
    (hd : dropna2 df j k ≠ []) (y : ℤ) :
    pivotCell (perYearRows dfs varname thr) y name
      = if y ∈ sortInts (((extremeRows (extremeData df j k) thr).map
            fun p => p.1.year).dedup)
        then ((extremeRows (extremeData df j k) thr).filter
            fun p => p.1.year = y).length
        else 0 := by
  have hconj : ((perYearRows dfs varname thr).filter
        fun r => decide (r.1 = name ∧ r.2.1 = y))
      = ((perYearRows dfs varname thr).filter
          fun r => decide (r.1 = name)).filter fun r => decide (r.2.1 = y) := by
    rw [List.filter_filter]
    apply List.filter_congr
    intro r _
    by_cases h1 : r.1 = name <;> by_cases h2 : r.2.1 = y <;> simp [h1, h2]
  have step1 : pivotCell (perYearRows dfs varname thr) y name
      = ((((perYearRows dfs varname thr).filter
            fun r => decide (r.1 = name)).filter
              fun r => decide (r.2.1 = y)).map fun r => r.2.2).sum := by
    unfold pivotCell
    rw [hconj]
  rw [step1, perYearRows_filter_name varname thr hnodup hmem,
    perYearSource_eq hk hj hd, List.filter_map]
  have hcomp : (sortInts (((extremeRows (extremeData df j k) thr).map
        fun p => p.1.year).dedup)).filter
          ((fun r : String × ℤ × ℕ => decide (r.2.1 = y)) ∘
            fun y' => (name, y', ((extremeRows (extremeData df j k) thr).filter
              fun p => p.1.year = y').length))
      = (sortInts (((extremeRows (extremeData df j k) thr).map
          fun p => p.1.year).dedup)).filter (· = y) := by
    apply List.filter_congr
    intro y' _
    rfl
  rw [hcomp]
  by_cases hy : y ∈ sortInts (((extremeRows (extremeData df j k) thr).map
      fun p => p.1.year).dedup)
  · rw [if_pos hy, List.filter_eq,
      List.count_eq_one_of_mem (sortInts_nodup (List.nodup_dedup _)) hy]
    simp
  · rw [if_neg hy, List.filter_eq, List.count_eq_zero_of_not_mem hy]
    simp

theorem cnt_eq_count (E : List (Date × ℚ)) (y : ℤ) :
    ((E.filter fun p => p.1.year = y).length)
      = (E.map fun p => p.1.year).count y := by
  rw [← List.countP_eq_length_filter, List.count, List.countP_map]
  apply List.countP_congr
  intro p _
  by_cases h : p.1.year = y <;> simp [h]

end WindData

namespace WindData

/-- C4: for every source appearing in the per-year table (distinct source
names, both columns present, a non-empty restriction, and at least one
exceedance), the matrix column of that source sums over all years to the
`Nb_extreme_days` of its summary row; cells of absent (year, source)
combinations are 0; and the matrix rows are the years sorted strictly
ascending. -/
theorem C4_per_year_matrix (dfs : List (String × DataFrame)) (name : String)
    (df : DataFrame) (varname : String) (thr : ℚ) {j k : ℕ}
    (hnodup : (dfs.map Prod.fst).Nodup)
    (hmem : (name, df) ∈ dfs)
    (hk : colIdx df.cols varname = some k)
    (hj : colIdx df.cols "time" = some j)
    (hd : dropna2 df j k ≠ [])
    (_hex : extremeRows (extremeData df j k) thr ≠ []) :
    (∃ row ∈ analyze_extreme_days_summary dfs varname thr,
      row.source = name ∧
      ((pivotYears (perYearRows dfs varname thr)).map fun y =>
          pivotCell (perYearRows dfs varname thr) y name).sum
        = row.nbExtremeDays) ∧
    (∀ y ∈ pivotYears (perYearRows dfs varname thr),
      (∀ rr ∈ perYearRows dfs varname thr, rr.1 = name → rr.2.1 ≠ y) →
      pivotCell (perYearRows dfs varname thr) y name = 0) ∧
    (pivotYears (perYearRows dfs varname thr)).Chain' (· < ·) := by
  have hcell := fun y => pivotCell_src thr hnodup hmem hk hj hd y
  have hyT : ∀ y ∈ sortInts (((extremeRows (extremeData df j k) thr).map
      fun p => p.1.year).dedup), y ∈ pivotYears (perYearRows dfs varname thr) := by
    intro y hy
    have hsrc : (name, y, ((extremeRows (extremeData df j k) thr).filter
        fun p => p.1.year = y).length) ∈ perYearSource name df varname thr := by
      rw [perYearSource_eq hk hj hd]
      exact List.mem_map.mpr ⟨y, hy, rfl⟩
    have hinR : (name, y, ((extremeRows (extremeData df j k) thr).filter
        fun p => p.1.year = y).length) ∈ perYearRows dfs varname thr :=
      List.mem_flatMap.mpr ⟨(name, df), hmem, hsrc⟩
    unfold pivotYears
    rw [mem_sortInts, List.mem_dedup]
    exact List.mem_map.mpr ⟨_, hinR, rfl⟩
  refine ⟨?_, ?_, pivotYears_sorted _⟩
  · refine ⟨mkSummaryRow name varname thr (extremeData df j k), ?_,
      mkSummaryRow_source _ _ _ _, ?_⟩
    · apply List.mem_filterMap.mpr
      refine ⟨(name, df), hmem, ?_⟩
      simp only [summaryRow?, hk, hj, if_neg hd]
    · rw [mkSummaryRow_nb]
      have hsub : (sortInts (((extremeRows (extremeData df j k) thr).map
            fun p => p.1.year).dedup)).toFinset
          ⊆ (pivotYears (perYearRows dfs varname thr)).toFinset := by
        intro y hy
        rw [List.mem_toFinset] at hy ⊢
        exact hyT y hy
      have hPn : (pivotYears (perYearRows dfs varname thr)).Nodup :=
        sortInts_nodup (List.nodup_dedup _)
      have hYn : (sortInts (((extremeRows (extremeData df j k) thr).map
          fun p => p.1.year).dedup)).Nodup :=
        sortInts_nodup (List.nodup_dedup _)
      calc ((pivotYears (perYearRows dfs varname thr)).map fun y =>
              pivotCell (perYearRows dfs varname thr) y name).sum
          = (pivotYears (perYearRows dfs varname thr)).toFinset.sum
              (fun y => pivotCell (perYearRows dfs varname thr) y name) :=
            (List.sum_toFinset _ hPn).symm
        _ = (sortInts (((extremeRows (extremeData df j k) thr).map
              fun p => p.1.year).dedup)).toFinset.sum
              (fun y => pivotCell (perYearRows dfs varname thr) y name) := by
            refine (Finset.sum_subset hsub ?_).symm
            intro x _ hnx
            rw [List.mem_toFinset] at hnx
            rw [hcell x, if_neg hnx]
        _ = ((sortInts (((extremeRows (extremeData df j k) thr).map
              fun p => p.1.year).dedup)).map
              fun y => pivotCell (perYearRows dfs varname thr) y name).sum :=
            List.sum_toFinset _ hYn
        _ = ((sortInts (((extremeRows (extremeData df j k) thr).map
              fun p => p.1.year).dedup)).map
              fun y => ((extremeRows (extremeData df j k) thr).filter
                fun p => p.1.year = y).length).sum := by
            apply congrArg
            apply List.map_congr_left
            intro y hy
            rw [hcell y, if_pos hy]
        _ = ((((extremeRows (extremeData df j k) thr).map
              fun p => p.1.year).dedup).map
              fun y => ((extremeRows (extremeData df j k) thr).filter
                fun p => p.1.year = y).length).sum :=
            ((insSort_perm _ _).map _).sum_eq
        _ = ((((extremeRows (extremeData df j k) thr).map
              fun p => p.1.year).dedup).map
              fun y => ((extremeRows (extremeData df j k) thr).map
                fun p => p.1.year).count y).sum := by
            apply congrArg
            apply List.map_congr_left
            intro y _
            exact cnt_eq_count _ y
        _ = ((extremeRows (extremeData df j k) thr).map
              fun p => p.1.year).length :=
            List.sum_map_count_dedup_eq_length _
        _ = (extremeRows (extremeData df j k) thr).length := by
            rw [List.length_map]
  · intro y _ hno
    by_cases hy : y ∈ sortInts (((extremeRows (extremeData df j k) thr).map
        fun p => p.1.year).dedup)
    · exfalso
      have hsrc : (name, y, ((extremeRows (extremeData df j k) thr).filter
          fun p => p.1.year = y).length) ∈ perYearSource name df varname thr := by
        rw [perYearSource_eq hk hj hd]
        exact List.mem_map.mpr ⟨y, hy, rfl⟩
      have hinR : (name, y, ((extremeRows (extremeData df j k) thr).filter
          fun p => p.1.year = y).length) ∈ perYearRows dfs varname thr :=
        List.mem_flatMap.mpr ⟨(name, df), hmem, hsrc⟩
      exact hno _ hinR rfl rfl
    · rw [hcell y, if_neg hy]

end WindData

namespace WindData

theorem C4_witness :
    (∃ row ∈ analyze_extreme_days_summary
        [("era5", witDf1b), ("noaa", witDf7b)] "windspeed_mean" 25,
      row.source = "era5" ∧
      ((pivotYears (perYearRows [("era5", witDf1b), ("noaa", witDf7b)]
            "windspeed_mean" 25)).map fun y =>
          pivotCell (perYearRows [("era5", witDf1b), ("noaa", witDf7b)]
            "windspeed_mean" 25) y "era5").sum
        = row.nbExtremeDays) ∧
    (∀ y ∈ pivotYears (perYearRows [("era5", witDf1b), ("noaa", witDf7b)]
        "windspeed_mean" 25),
      (∀ rr ∈ perYearRows [("era5", witDf1b), ("noaa", witDf7b)]
          "windspeed_mean" 25, rr.1 = "era5" → rr.2.1 ≠ y) →
      pivotCell (perYearRows [("era5", witDf1b), ("noaa", witDf7b)]
        "windspeed_mean" 25) y "era5" = 0) ∧
    (pivotYears (perYearRows [("era5", witDf1b), ("noaa", witDf7b)]
        "windspeed_mean" 25)).Chain' (· < ·) :=
  C4_per_year_matrix [("era5", witDf1b), ("noaa", witDf7b)] "era5" witDf1b
    "windspeed_mean" 25
    (by decide) (by decide)
    (by decide : colIdx witDf1b.cols "windspeed_mean" = some 1)
    (by decide : colIdx witDf1b.cols "time" = some 0)
    (by decide) (by decide)

end WindData
